import Mathlib

/-!
Shallow embedding of the monsterwm-xcb window manager core (src/monsterwm.c)
and proofs about the claims of its specification.

The repository file src/monsterwm.c contains two revisions of the manager;
the shipped one (built by the Makefile together with GL/glcomposite.c) is the
revision that splits the layouts into the functions stack()/grid()/monocle().
Where the two revisions agree the embedding covers both; where they differ
the embedding notes which revision it follows.

Machine integers are modelled as Int with C truncated division
(Int.tdiv / Int.tmod), matching C99 semantics of / and % on int.
Pointer-linked client lists are modelled as Lean lists; a client record
keeps the fields the verified handlers read.
-/

/-! ### Layout modes (enum { TILE, MONOCLE, BSTACK, GRID, MODES }) -/

def TILE : Int := 0

def MONOCLE : Int := 1

def BSTACK : Int := 2

def GRID : Int := 3

/-! ### Stack layout arithmetic (tile() in the first revision, stack() in the
shipped revision).

For `n` stack clients sharing an axis of length `z` with growth `g` the code
computes
  `d = (z - growth) % n + growth;  z = (z - growth) / n;`
and then gives the first stack client extent `z + d` along the axis and every
other stack client extent `z` (the position advances by `z + d` after the
first stack client and by `z` after each further one).  With `n == 1` the
code skips the division (first revision: the result is the same because
`(z-g)/1 + (z-g)%1 + g = z`; shipped revision: the single stack client is
given the whole remaining axis `z` directly, which again coincides). -/

def stackD (z growth n : Int) : Int := (z - growth).tmod n + growth

def stackZ (z growth n : Int) : Int := (z - growth).tdiv n

/-- Per-client extents along the shared axis, in stack order: the first stack
client gets `z' + d`, the remaining `n - 1` clients get `z'` each. -/
def stackExtents (z growth : Int) (n : Nat) : List Int :=
  (stackZ z growth n + stackD z growth n) :: List.replicate (n - 1) (stackZ z growth n)

/-! ### Grid layout (grid() in the shipped revision, the GRID branch of
tile() in the first revision; identical arithmetic).

  for (cols=0; cols <= n/2; cols++) if (cols*cols >= n) break;
  if (n == 5) cols = 2;
  rows = n/cols;
  ...
  for each client i:
    if (i/rows + 1 > cols - n%cols) rows = n/cols + 1;
    place client at column cn, row rn;
    if (++rn >= rows) { rn = 0; cn++; }
-/

/-- The column-search loop: starting at `c`, with `fuel` iterations left
(the C loop runs while `cols <= n/2`, i.e. at most `n/2 + 1` times from 0),
return the first value whose square reaches `n`, or the value after the
last iteration. -/
def colsFrom (n : Nat) : Nat → Nat → Nat
  | c, 0 => c
  | c, fuel + 1 => if n ≤ c * c then c else colsFrom n (c + 1) fuel

/-- Result of the `for (cols=0; cols <= n/2; cols++)` search. -/
def gridCols (n : Nat) : Nat := colsFrom n 0 (n / 2 + 1)

/-- Column count after the `if (n == 5) cols = 2;` special case. -/
def gridColsFinal (n : Nat) : Nat := if n = 5 then 2 else gridCols n

/-- One step of the row-count adjustment performed per client:
`if (i/rows + 1 > cols - n%cols) rows = n/cols + 1;`. -/
def gridRowsStep (n c : Nat) (rows : Nat) (i : Nat) : Nat :=
  if i / rows + 1 > c - n % c then n / c + 1 else rows

/-- The value of `rows` after the per-client loop has run over all `n`
clients (initially `rows = n/cols`). -/
def gridRows (n : Nat) : Nat :=
  (List.range n).foldl (gridRowsStep n (gridColsFinal n)) (n / gridColsFinal n)

/-- State of the per-client placement loop of grid(): current `rows`,
column number `cn`, row number `rn`, and the cells handed out so far. -/
structure GridSt where
  rows : Nat
  cn : Nat
  rn : Nat
  cells : List (Nat × Nat)
deriving DecidableEq, Repr

/-- One iteration of the placement loop for client `i`. -/
def gridStep (n c : Nat) (st : GridSt) (i : Nat) : GridSt :=
  let rows := if i / st.rows + 1 > c - n % c then n / c + 1 else st.rows
  let rn := st.rn + 1
  if rn ≥ rows then ⟨rows, st.cn + 1, 0, st.cells ++ [(st.cn, st.rn)]⟩
  else ⟨rows, st.cn, rn, st.cells ++ [(st.cn, st.rn)]⟩

/-- The (column, row) cell assigned to each of the `n` eligible clients, in
client-list order. -/
def gridCells (n : Nat) : List (Nat × Nat) :=
  ((List.range n).foldl (gridStep n (gridColsFinal n)) ⟨n / gridColsFinal n, 0, 0, []⟩).cells

/-! ### clientmessage() fullscreen handling.

  if (ev->format != 32) return;
  if (c && ev->type == netatoms[NET_WM_STATE] &&
      ((xcb_atom_t)ev->data.data32[1] == netatoms[NET_FULLSCREEN] ||
       (xcb_atom_t)ev->data.data32[2] == netatoms[NET_FULLSCREEN]))
      setfullscreen(c, (ev->data.data32[0] == 1 ||
                        (ev->data.data32[0] == 2 && !c->isfullscrn)));

setfullscreen(c, b) stores `c->isfullscrn = b`. -/

/-- The parts of an xcb client message event the fullscreen path reads.
Atom identity is abstracted to the two comparisons the code performs. -/
structure ClientMsg where
  format : Nat
  typeIsWmState : Bool
  data0 : Nat
  data1IsFullscreen : Bool
  data2IsFullscreen : Bool
deriving DecidableEq, Repr

/-- Fullscreen flag of the tracked target client after clientmessage(). -/
def clientmessageFlag (ev : ClientMsg) (isfullscrn : Bool) : Bool :=
  if ev.format ≠ 32 then isfullscrn
  else if ev.typeIsWmState && (ev.data1IsFullscreen || ev.data2IsFullscreen) then
    (ev.data0 == 1 || (ev.data0 == 2 && !isfullscrn))
  else isfullscrn

/-! ### resize_master() / resize_stack().

  void resize_master(const Arg *arg) {
      int msz = CM->master_size + arg->i;
      if ((CM->mode == BSTACK ? CM->wh : CM->ww) - msz <= MINWSZ || msz <= MINWSZ) return;
      CM->master_size = msz;
      tile();
  }
  /* resize the first stack window - no boundary checks */
  void resize_stack(const Arg *arg) {
      CM->growth += arg->i;
      tile();
  }

MINWSZ comes from config.h (not under src/) and is kept as a parameter. -/

/-- The per-monitor fields resize_master/resize_stack read and write. -/
structure MonGeom where
  mode : Int
  master_size : Int
  growth : Int
  wh : Int
  ww : Int
deriving DecidableEq, Repr

def resize_master (MINWSZ : Int) (s : MonGeom) (i : Int) : MonGeom :=
  let msz := s.master_size + i
  if (if s.mode = BSTACK then s.wh else s.ww) - msz ≤ MINWSZ ∨ msz ≤ MINWSZ then s
  else { s with master_size := msz }

def resize_stack (s : MonGeom) (i : Int) : MonGeom :=
  { s with growth := s.growth + i }

/-! ### Client list reordering (move_down() / move_up()).

The C functions reorder the current desktop's singly-linked client list by
pointer surgery; the branches of the functional translation below mirror
the code's case analysis.  move_down(): if the current client has a
successor it swaps with it; if it is last it becomes the new head
(`n = CM->head`, `CM->head = CM->current` path).  move_up(): if the
current client is head it becomes last; otherwise it swaps with its
predecessor.  Clients are identified by their (distinct) window ids. -/

def moveDownList (l : List Nat) (c : Nat) : List Nat :=
  match l.dropWhile (fun x => x != c) with
  | [] => l
  | _ :: post =>
    match post with
    | [] => c :: l.takeWhile (fun x => x != c)
    | n :: rest => l.takeWhile (fun x => x != c) ++ n :: c :: rest

def moveUpList (l : List Nat) (c : Nat) : List Nat :=
  match l.dropWhile (fun x => x != c) with
  | [] => l
  | _ :: post =>
    let pre := l.takeWhile (fun x => x != c)
    if pre = [] then post ++ [c]
    else pre.dropLast ++ c :: pre.getLastD c :: post

/-! ### Clients, desktop contexts, monitors.

A client record keeps the fields the verified handlers read (the C struct
additionally holds the next-pointer, modelled by list order, and a name
buffer).  A desktop context holds the mutable per-desktop fields; `head`
is the client list reachable from the head pointer.  A monitor holds the
active context, the saved per-desktop slots, and its active desktop
index (geometry and bar handles are not read by the verified
operations). -/

structure Cl where
  win : Nat
  monitor : Int
  isurgent : Bool
  istransient : Bool
  isfullscrn : Bool
  isfloating : Bool
deriving DecidableEq, Repr

structure DCtx where
  master_size : Int
  mode : Int
  growth : Int
  head : List Cl
  current : Option Cl
  prevfocus : Option Cl
  showpanel : Bool
deriving DecidableEq, Repr

def emptyDCtx : DCtx := ⟨0, 0, 0, [], none, none, true⟩

instance : Inhabited DCtx := ⟨emptyDCtx⟩

structure Mon where
  current_desktop : Int
  active : DCtx
  desktops : List DCtx
deriving DecidableEq, Repr

def emptyMon : Mon := ⟨0, emptyDCtx, []⟩

/-! ### save_desktop() / select_desktop().

  void save_desktop(int i) {
      if (i < 0 || i >= DESKTOPS) return;
      CM->desktops[i].<field> = CM-><field>; ... (all seven fields)
  }
  void select_desktop(int i) {
      if (i < 0 || i >= DESKTOPS) return;
      save_desktop(CM->current_desktop);
      CM-><field> = CM->desktops[i].<field>; ...
      CM->current_desktop = i;
  }

(The first revision's guards lack the `i < 0` test; all call sites use
non-negative indices, where the two coincide.)  DESKTOPS is the length of
the monitor's desktops array. -/

def save_desktop (m : Mon) (i : Int) : Mon :=
  if i < 0 ∨ (m.desktops.length : Int) ≤ i then m
  else { m with desktops := m.desktops.set i.toNat m.active }

def select_desktop (m : Mon) (i : Int) : Mon :=
  if i < 0 ∨ (m.desktops.length : Int) ≤ i then m
  else
    let m1 := save_desktop m m.current_desktop
    { m1 with active := m1.desktops.getD i.toNat emptyDCtx, current_desktop := i }

/-! ### The monitor table and select_monitor().

  void select_monitor(int i) {
     if (i >= MONITORS) return;
     CM = &monitors[i];
     current_monitor = i;
  } -/

structure WM where
  current_monitor : Int
  monitors : List Mon
deriving DecidableEq, Repr

def select_monitor (s : WM) (i : Int) : WM :=
  if (s.monitors.length : Int) ≤ i then s else { s with current_monitor := i }

/-! ### wintoclient().

  client* wintoclient(xcb_window_t w) {
      client *c = NULL;
      int d = 0, m = 0, OLDM = current_monitor, cd; bool found = false;
      for (; m<MONITORS && !found; ++m) {
          select_monitor(m); d = 0; cd = CM->current_desktop;
          for (; d<DESKTOPS && !found; ++d)
              for (select_desktop(d), c=monitors[m].head; c && !(found = (w == c->win)); c=c->next);
          select_desktop(cd);
      }
      select_monitor(OLDM);
      return c;
  } -/

def searchDesk (w : Nat) (st : Mon × Option Cl) (d : Nat) : Mon × Option Cl :=
  if st.2.isSome then st
  else
    let m := select_desktop st.1 (d : Int)
    (m, m.active.head.find? (fun c => c.win == w))

def wintoclientMon (w : Nat) (m : Mon) : Mon × Option Cl :=
  let cd := m.current_desktop
  let r := (List.range m.desktops.length).foldl (searchDesk w) (m, none)
  (select_desktop r.1 cd, r.2)

def wintoclientStep (w : Nat) (st : WM × Option Cl) (mi : Nat) : WM × Option Cl :=
  if st.2.isSome then st
  else
    let s1 := select_monitor st.1 (mi : Int)
    match s1.monitors.get? mi with
    | none => (s1, none)
    | some m =>
      let r := wintoclientMon w m
      ({ s1 with monitors := s1.monitors.set mi r.1 }, r.2)

def wintoclient (s : WM) (w : Nat) : WM × Option Cl :=
  let OLDM := s.current_monitor
  let r := (List.range s.monitors.length).foldl (wintoclientStep w) (s, none)
  (select_monitor r.1 OLDM, r.2)

/-! ### removeclient() (state effect; tile()/update_current() only issue
X commands on the already-updated state).

  void removeclient(client *c) {
      client **p = NULL;
      int OLDM = current_monitor;
      select_monitor(c->monitor);
      int nd = 0, cd = CM->current_desktop;
      for (bool found = false; nd<DESKTOPS && !found; nd++)
          for (select_desktop(nd), p = &CM->head; *p && !(found = *p == c); p = &(*p)->next);
      *p = c->next;
      CM->current = (CM->prevfocus && CM->prevfocus != c) ? CM->prevfocus
                    : (*p) ? (CM->prevfocus = *p) : (CM->prevfocus = CM->head);
      select_desktop(cd);
      ... free(c);
      if (OLDM != current_monitor) { select_monitor(OLDM); ... }
  } -/

def removeclientDesk (c : Cl) (st : Mon × Bool) (d : Nat) : Mon × Bool :=
  if st.2 then st
  else
    let m := select_desktop st.1 (d : Int)
    (m, m.active.head.contains c)

def unlinkClient (m : Mon) (c : Cl) : Mon :=
  let idx := m.active.head.findIdx (fun x => x == c)
  let l2 := m.active.head.eraseIdx idx
  let starP := l2.get? idx
  let cp : Option Cl :=
    match m.active.prevfocus with
    | some p => if p == c then (match starP with | some a => some a | none => l2.head?) else some p
    | none => match starP with | some a => some a | none => l2.head?
  { m with active := { m.active with head := l2, current := cp, prevfocus := cp } }

def removeclientWM (s : WM) (c : Cl) : WM :=
  let OLDM := s.current_monitor
  let s1 := select_monitor s c.monitor
  match s1.monitors.get? c.monitor.toNat with
  | none => s1
  | some m =>
    let cd := m.current_desktop
    let r := (List.range m.desktops.length).foldl (removeclientDesk c) (m, false)
    let m3 := select_desktop (unlinkClient r.1 c) cd
    let s2 := { s1 with monitors := s1.monitors.set c.monitor.toNat m3 }
    if OLDM ≠ s2.current_monitor then select_monitor s2 OLDM else s2

/-! ### desktopinfo() (shipped revision).

  void desktopinfo(void) {
      bool urgent = false;
      int OLDM = current_monitor, cd, n=0, d=0, m=0;
      for (; m<MONITORS; m++) {
          select_monitor(m); d = 0; cd = CM->current_desktop;
          for (client *c; d<DESKTOPS; d++) {
              for (select_desktop(d), c=CM->head, n=0, urgent=false; c; c=c->next, ++n)
                  if (c->isurgent) urgent = true;
              fprintf(stdout, "%d:%d:%d:%d:%d:%d:%d%c", m, current_monitor == OLDM, d, n,
                      CM->mode, CM->current_desktop == cd, urgent,
                      (m+1==MONITORS && d+1==DESKTOPS)?'\n':' ');
          }
          select_desktop(cd);
          drawbar(m == OLDM);
      }
      fflush(stdout);
      select_monitor(OLDM);
  } -/

def boolInt (b : Bool) : Nat := if b then 1 else 0

def deskinfoDeskStep (mIdx : Nat) (isOld : Bool) (lastMon : Bool) (DESKTOPS : Nat) (cd : Int)
    (st : Mon × String) (d : Nat) : Mon × String :=
  let m2 := select_desktop st.1 (d : Int)
  let n := m2.active.head.length
  let urg := m2.active.head.any (fun c => c.isurgent)
  let line := toString mIdx ++ ":" ++ toString (boolInt isOld) ++ ":" ++ toString d ++ ":" ++
    toString n ++ ":" ++ toString m2.active.mode ++ ":" ++
    toString (boolInt (m2.current_desktop == cd)) ++ ":" ++ toString (boolInt urg) ++
    (if lastMon ∧ d + 1 = DESKTOPS then "\n" else " ")
  (m2, st.2 ++ line)

def deskinfoMon (mIdx : Nat) (isOld : Bool) (lastMon : Bool) (m : Mon) : Mon × String :=
  let cd := m.current_desktop
  let r := (List.range m.desktops.length).foldl
    (deskinfoDeskStep mIdx isOld lastMon m.desktops.length cd) (m, "")
  (select_desktop r.1 cd, r.2)

def deskinfoMonStep (OLDM : Int) (MON : Nat) (st : WM × String) (mi : Nat) : WM × String :=
  let s1 := select_monitor st.1 (mi : Int)
  match s1.monitors.get? mi with
  | none => (s1, st.2)
  | some m =>
    let r := deskinfoMon mi (s1.current_monitor == OLDM) (mi + 1 = MON) m
    ({ s1 with monitors := s1.monitors.set mi r.1 }, st.2 ++ r.2)

def desktopinfoWM (s : WM) : WM × String :=
  let OLDM := s.current_monitor
  let r := (List.range s.monitors.length).foldl (deskinfoMonStep OLDM s.monitors.length) (s, "")
  (select_monitor r.1 OLDM, r.2)

/-! ### destroynotify() / unmapnotify().

  void destroynotify(xcb_generic_event_t *e) {
      client *c = wintoclient(ev->window);
      if (c) removeclient(c);
      desktopinfo();
  }
  void unmapnotify(xcb_generic_event_t *e) {
      client *c = wintoclient(ev->window);
      if (c && ev->event != screen->root) removeclient(c);
      desktopinfo();
  } -/

def destroynotifyWM (s : WM) (w : Nat) : WM :=
  let r := wintoclient s w
  let s1 := match r.2 with
    | some c => removeclientWM r.1 c
    | none => r.1
  (desktopinfoWM s1).1

def unmapnotifyWM (s : WM) (w : Nat) (eventIsRoot : Bool) : WM :=
  let r := wintoclient s w
  let s1 := match r.2 with
    | some c => if eventIsRoot then r.1 else removeclientWM r.1 c
    | none => r.1
  (desktopinfoWM s1).1

/-! ### Well-formedness.

`MonWF`: the active desktop index is in range and the saved slot of the
active desktop agrees with the active context (the in-sync invariant that
save_desktop/select_desktop maintain and that list-surgery operations
temporarily break). -/

def MonWF (m : Mon) : Prop :=
  0 ≤ m.current_desktop ∧ m.current_desktop < (m.desktops.length : Int) ∧
  m.desktops.getD m.current_desktop.toNat emptyDCtx = m.active

instance (m : Mon) : Decidable (MonWF m) := by unfold MonWF; infer_instance

def WMWF (s : WM) : Prop :=
  0 ≤ s.current_monitor ∧ s.current_monitor < (s.monitors.length : Int) ∧
  ∀ m ∈ s.monitors, MonWF m

instance (s : WM) : Decidable (WMWF s) := by unfold WMWF; infer_instance

/-- No tracked client holds window `w` (in any desktop slot of any
monitor; under `WMWF` the active lists coincide with the slot lists). -/
def untracked (s : WM) (w : Nat) : Prop :=
  ∀ m ∈ s.monitors, ∀ dctx ∈ m.desktops, ∀ c ∈ dctx.head, c.win ≠ w

instance (s : WM) (w : Nat) : Decidable (untracked s w) := by
  unfold untracked; infer_instance

/-! ### Specification-side rendering of the status output.

Modelled from the spec: one token-group per (monitor, desktop) pair in the
field order monitor-index : is-active-monitor : desktop-index :
client-count : layout-mode-id : is-active-desktop : urgent-flag, groups
separated by single spaces, one trailing newline. -/

def specGroup (s : WM) (mi d : Nat) : String :=
  let m := s.monitors.getD mi emptyMon
  let ctx := m.desktops.getD d emptyDCtx
  toString mi ++ ":" ++ (if (mi : Int) = s.current_monitor then "1" else "0") ++ ":" ++
  toString d ++ ":" ++ toString ctx.head.length ++ ":" ++ toString ctx.mode ++ ":" ++
  (if (d : Int) = m.current_desktop then "1" else "0") ++ ":" ++
  (if ctx.head.any (fun c => c.isurgent) then "1" else "0")

def desktopinfoSpecOut (s : WM) : String :=
  String.intercalate " "
    ((List.range s.monitors.length).flatMap (fun mi =>
      (List.range (s.monitors.getD mi emptyMon).desktops.length).map
        (fun d => specGroup s mi d))) ++ "\n"

/-- Helper: append a space to every string except the last, which gets a
newline (the shape produced by the printf separator choice). -/
def markLast : List String → List String
  | [] => []
  | [g] => [g ++ "\n"]
  | g :: g2 :: rest => (g ++ " ") :: markLast (g2 :: rest)

/-! ### Concrete states for counterexamples and witnesses. -/

def ctxA : DCtx := ⟨10, 0, 0, [], none, none, true⟩

def ctxB : DCtx := ⟨20, 1, 2, [], none, none, true⟩

def monC2 : Mon := ⟨0, ctxA, [ctxA, ctxB]⟩

def ctxStale : DCtx := ⟨77, 3, 5, [], none, none, true⟩

def wmStale : WM := ⟨0, [⟨0, ctxStale, [ctxA, ctxB]⟩]⟩

def clW : Cl := ⟨42, 0, false, false, false, false⟩

def ctxW : DCtx := ⟨10, 0, 0, [clW], some clW, none, true⟩

def wmSync : WM := ⟨0, [⟨0, ctxW, [ctxW, ctxB]⟩]⟩

/-- A monitor whose desktops array is `D`, with a valid active index and
whose active context is the loaded copy of slot `current_desktop` — the
shape every monitor has while the desktop loops of wintoclient(),
desktopinfo() and removeclient() are running. -/
def monAligned (D : List DCtx) (m : Mon) : Prop :=
  m.desktops = D ∧ 0 ≤ m.current_desktop ∧ m.current_desktop < (D.length : Int) ∧
  m.active = D.getD m.current_desktop.toNat emptyDCtx

/-- The token group desktopinfo() prints for desktop `d` of monitor `mIdx`,
expressed over the slot array `D` and saved active index `cd` (the values
the loaded context has under `monAligned`). -/
def implGroupOf (mIdx : Nat) (isOld : Bool) (D : List DCtx) (cd : Int) (d : Nat) : String :=
  toString mIdx ++ ":" ++ toString (boolInt isOld) ++ ":" ++ toString d ++ ":" ++
  toString (D.getD d emptyDCtx).head.length ++ ":" ++
  toString (D.getD d emptyDCtx).mode ++ ":" ++
  toString (boolInt ((d : Int) == cd)) ++ ":" ++
  toString (boolInt ((D.getD d emptyDCtx).head.any (fun c => c.isurgent)))

/-- Concatenation of a list of strings (used to state the closed forms of
the desktopinfo() output). -/
def strConcat : List String → String
  | [] => ""
  | s :: rest => s ++ strConcat rest

/-! ### Theorems -/

/-- C1: In the Tile/BottomStack stack layout, for every number of stack
clients n in [1..50] sharing an axis of length z with growth g, the first
stack client's extent is `(z-g)/n + ((z-g) % n + g)` and every other stack
client's extent is `(z-g)/n` (C truncated division), and these extents sum
to exactly z — no gap and no overlap at the far screen edge. -/
theorem stack_extents_sum (z growth : Int) (n : Nat) (h1 : 1 ≤ n) (h50 : n ≤ 50) :
    (stackExtents z growth n).sum = z := by
  have key := Int.tdiv_add_tmod (z - growth) (n : Int)
  have hc : ((n - 1 : Nat) : Int) = (n : Int) - 1 := by
    omega
  simp only [stackExtents, List.sum_cons, List.sum_replicate, nsmul_eq_mul, hc,
    stackZ, stackD]
  linarith [key]

/-- Witness for C1 at n = 3, z = 100, g = 7. -/
theorem stack_extents_sum_witness : (stackExtents 100 7 3).sum = 100 :=
  stack_extents_sum 100 7 3 (by decide) (by decide)

/-! #### Grid layout: helper lemmas about the column-search loop. -/

theorem colsFrom_ge (n : Nat) : ∀ fuel c, c ≤ colsFrom n c fuel := by
  intro fuel
  induction fuel with
  | zero => intro c; exact le_refl c
  | succ f ih =>
    intro c
    simp only [colsFrom]
    split
    · exact le_refl c
    · exact le_trans (Nat.le_succ c) (ih (c + 1))

theorem colsFrom_le (n : Nat) : ∀ fuel c, colsFrom n c fuel ≤ c + fuel := by
  intro fuel
  induction fuel with
  | zero => intro c; exact Nat.le_refl c
  | succ f ih =>
    intro c
    simp only [colsFrom]
    split
    · exact Nat.le_add_right c (f + 1)
    · exact le_trans (ih (c + 1)) (by omega)

theorem colsFrom_le_of_sq (n : Nat) : ∀ fuel c j, c ≤ j → n ≤ j * j →
    colsFrom n c fuel ≤ j := by
  intro fuel
  induction fuel with
  | zero => intro c j hcj _; exact hcj
  | succ f ih =>
    intro c j hcj hj
    simp only [colsFrom]
    split
    · exact hcj
    · next hne =>
      have hcj2 : c + 1 ≤ j := by
        rcases Nat.lt_or_ge c j with h | h
        · omega
        · exfalso; have : c = j := le_antisymm hcj h; subst this; exact hne hj
      exact ih (c + 1) j hcj2 hj

theorem colsFrom_sq (n : Nat) : ∀ fuel c, colsFrom n c fuel < c + fuel →
    n ≤ colsFrom n c fuel * colsFrom n c fuel := by
  intro fuel
  induction fuel with
  | zero => intro c h; simp only [colsFrom] at h; omega
  | succ f ih =>
    intro c h
    by_cases hc : n ≤ c * c
    · simp only [colsFrom, if_pos hc]; exact hc
    · simp only [colsFrom, if_neg hc] at h ⊢
      exact ih (c + 1) (by omega)

theorem gridCols_sq (n : Nat) : n ≤ gridCols n * gridCols n := by
  unfold gridCols
  rcases Nat.lt_or_ge (colsFrom n 0 (n / 2 + 1)) (0 + (n / 2 + 1)) with h | h
  · exact colsFrom_sq n (n / 2 + 1) 0 h
  · have heq : colsFrom n 0 (n / 2 + 1) = n / 2 + 1 :=
      le_antisymm (by simpa using colsFrom_le n (n / 2 + 1) 0) (by omega)
    rw [heq]
    have h2 : n ≤ 2 * (n / 2) + 1 := by omega
    nlinarith [Nat.zero_le (n / 2)]

theorem gridCols_min (n k : Nat) (h : n ≤ k * k) : gridCols n ≤ k :=
  colsFrom_le_of_sq n (n / 2 + 1) 0 k (Nat.zero_le k) h

theorem foldl_eq_of_fix {α β : Type} (f : β → α → β) (b : β) :
    ∀ l : List α, (∀ a ∈ l, f b a = b) → l.foldl f b = b := by
  intro l
  induction l with
  | nil => intro _; rfl
  | cons a as ih =>
    intro h
    simp only [List.foldl_cons]
    rw [h a (List.mem_cons_self a as)]
    exact ih (fun x hx => h x (List.mem_cons_of_mem a hx))

theorem foldl_eq_of_hit {α β : Type} (f : β → α → β) (b K : β) (hbK : b ≠ K)
    (hstep : ∀ x, f b x = b ∨ f b x = K) (hfix : ∀ x, f K x = K) :
    ∀ l : List α, (∃ x ∈ l, f b x = K) → l.foldl f b = K := by
  intro l
  induction l with
  | nil => rintro ⟨x, hx, _⟩; exact absurd hx (List.not_mem_nil x)
  | cons a as ih =>
    rintro ⟨x, hx, hfx⟩
    simp only [List.foldl_cons]
    rcases hstep a with ha | ha
    · rw [ha]
      rcases List.mem_cons.mp hx with rfl | hxs
      · exact absurd (ha.symm.trans hfx) hbK
      · exact ih ⟨x, hxs, hfx⟩
    · rw [ha]
      exact foldl_eq_of_fix f K as (fun y _ => hfix y)

theorem gridRows_eq (n : Nat) (hc1 : 1 ≤ gridColsFinal n)
    (hcn : gridColsFinal n ≤ n) :
    gridRows n = n / gridColsFinal n + (if n % gridColsFinal n = 0 then 0 else 1) := by
  unfold gridRows
  set c := gridColsFinal n with hc
  have hc0 : 0 < c := hc1
  have hq1 : 1 ≤ n / c := (Nat.one_le_div_iff hc0).mpr hcn
  by_cases hr : n % c = 0
  · rw [if_pos hr, Nat.add_zero]
    apply foldl_eq_of_fix
    intro i hi
    have hin : i < n := List.mem_range.mp hi
    unfold gridRowsStep
    rw [if_neg]
    rw [hr, Nat.sub_zero]
    have hicn : i < c * (n / c) := by
      have := Nat.div_add_mod n c
      omega
    have : i / (n / c) < c := by
      rw [Nat.div_lt_iff_lt_mul hq1]
      omega
    omega
  · rw [if_neg hr]
    apply foldl_eq_of_hit
    · omega
    · intro x
      unfold gridRowsStep
      split
      · right; rfl
      · left; rfl
    · intro x
      unfold gridRowsStep
      split <;> rfl
    · refine ⟨n / c * (c - n % c), List.mem_range.mpr ?_, ?_⟩
      · have hcq := Nat.div_add_mod n c
        calc n / c * (c - n % c) ≤ n / c * c := Nat.mul_le_mul_left _ (Nat.sub_le _ _)
          _ = c * (n / c) := Nat.mul_comm _ _
          _ < n := by omega
      · unfold gridRowsStep
        rw [if_pos]
        have : n / c * (c - n % c) / (n / c) = c - n % c :=
          Nat.mul_div_cancel_left _ (by omega)
        omega

theorem gridColsFinal_pos (n : Nat) (h1 : 1 ≤ n) : 1 ≤ gridColsFinal n := by
  unfold gridColsFinal
  split
  · omega
  · have := gridCols_sq n
    by_contra h
    have h0 : gridCols n = 0 := by omega
    rw [h0] at this
    omega

theorem gridColsFinal_le (n : Nat) (h1 : 1 ≤ n) : gridColsFinal n ≤ n := by
  unfold gridColsFinal
  split
  · omega
  · exact gridCols_min n n (by nlinarith)

/-- C3: For every eligible client count n ≥ 1 the Grid layout chooses the
number of columns as the smallest integer whose square is ≥ n, except that
n = 5 yields exactly 2 columns; with rows the final value of the per-client
row adjustment, columns × rows ≥ n and columns × (rows − 1) < n. -/
theorem grid_cols_spec (n : Nat) (h1 : 1 ≤ n) :
    (n = 5 → gridColsFinal n = 2) ∧
    (n ≠ 5 → n ≤ gridColsFinal n * gridColsFinal n ∧
      ∀ k, n ≤ k * k → gridColsFinal n ≤ k) ∧
    n ≤ gridColsFinal n * gridRows n ∧
    gridColsFinal n * (gridRows n - 1) < n := by
  have hc1 := gridColsFinal_pos n h1
  have hcn := gridColsFinal_le n h1
  have hrows := gridRows_eq n hc1 hcn
  have hcq := Nat.div_add_mod n (gridColsFinal n)
  refine ⟨fun h5 => by simp [gridColsFinal, h5], fun h5 => ?_, ?_, ?_⟩
  · have he : gridColsFinal n = gridCols n := by simp [gridColsFinal, h5]
    rw [he]
    exact ⟨gridCols_sq n, fun k hk => gridCols_min n k hk⟩
  · rw [hrows]
    by_cases hr : n % gridColsFinal n = 0
    · rw [if_pos hr, Nat.add_zero]
      omega
    · rw [if_neg hr, Nat.mul_add, Nat.mul_one]
      have : n % gridColsFinal n < gridColsFinal n := Nat.mod_lt n hc1
      omega
  · rw [hrows]
    by_cases hr : n % gridColsFinal n = 0
    · rw [if_pos hr, Nat.add_zero]
      have hq1 : 1 ≤ n / gridColsFinal n := (Nat.one_le_div_iff hc1).mpr hcn
      have : gridColsFinal n * (n / gridColsFinal n - 1) <
          gridColsFinal n * (n / gridColsFinal n) :=
        (Nat.mul_lt_mul_left hc1).mpr (by omega)
      omega
    · rw [if_neg hr]
      simp only [Nat.add_sub_cancel]
      omega

/-- Witness for C3 at n = 7: columns 3, rows 3. -/
theorem grid_cols_spec_witness :
    (7 : Nat) ≤ gridColsFinal 7 * gridRows 7 ∧ gridColsFinal 7 * (gridRows 7 - 1) < 7 :=
  ⟨(grid_cols_spec 7 (by decide)).2.2.1, (grid_cols_spec 7 (by decide)).2.2.2⟩

/-- C4 counterexample: with five eligible clients in Grid mode the code
hands the FIRST column 2 clients and the SECOND column 3, not 3 and 2 as
the claim states. -/
theorem grid_five_claim_false :
    (gridCells 5).countP (fun p => p.1 == 0) ≠ 3 ∧
    (gridCells 5).countP (fun p => p.1 == 1) ≠ 2 := by decide

/-- C4 (amended): with five eligible clients in Grid mode the layout uses
2 columns; the first column holds 2 rows (two clients) and the second
column holds 3 rows (three clients) — the overflow row goes to the later
column, the one beyond the `cols - n%cols` columns of base row quota. -/
theorem grid_five_layout :
    gridColsFinal 5 = 2 ∧
    gridCells 5 = [(0, 0), (0, 1), (1, 0), (1, 1), (1, 2)] ∧
    (gridCells 5).countP (fun p => p.1 == 0) = 2 ∧
    (gridCells 5).countP (fun p => p.1 == 1) = 3 := by decide

/-- C6: for a tracked client receiving a format-32 _NET_WM_STATE client
message naming the fullscreen atom, the resulting fullscreen flag is:
false for action 0 (unset), true for action 1 (set), and the negation of
the prior value for action 2 (toggle). -/
theorem clientmessage_fullscreen (ev : ClientMsg) (b : Bool)
    (hf : ev.format = 32) (ht : ev.typeIsWmState = true)
    (ha : ev.data1IsFullscreen = true ∨ ev.data2IsFullscreen = true) :
    (ev.data0 = 0 → clientmessageFlag ev b = false) ∧
    (ev.data0 = 1 → clientmessageFlag ev b = true) ∧
    (ev.data0 = 2 → clientmessageFlag ev b = !b) := by
  unfold clientmessageFlag
  rcases ha with h | h <;>
    refine ⟨fun h0 => ?_, fun h0 => ?_, fun h0 => ?_⟩ <;>
    simp [hf, ht, h, h0]

/-- Witness for C6: toggling from fullscreen turns the flag off. -/
theorem clientmessage_fullscreen_witness :
    clientmessageFlag ⟨32, true, 2, true, false⟩ true = false :=
  (clientmessage_fullscreen ⟨32, true, 2, true, false⟩ true rfl rfl (Or.inl rfl)).2.2 rfl

/-- C7 counterexample: resize_stack applies its delta unconditionally
(the code comments "no boundary checks"); with growth −10000 on a
1000-wide axis split between 2 stack clients the first stack client's
extent becomes −4500, far below any positive MINWSZ, yet the growth is
changed rather than the operation being rejected. -/
theorem resize_stack_claim_false :
    resize_stack ⟨TILE, 500, 0, 1000, 1000⟩ (-10000) ≠ ⟨TILE, 500, 0, 1000, 1000⟩ ∧
    (resize_stack ⟨TILE, 500, 0, 1000, 1000⟩ (-10000)).growth = -10000 ∧
    stackZ 1000 (resize_stack ⟨TILE, 500, 0, 1000, 1000⟩ (-10000)).growth 2 +
      stackD 1000 (resize_stack ⟨TILE, 500, 0, 1000, 1000⟩ (-10000)).growth 2 < 50 := by
  decide

/-- C7 (amended): resize_master rejects outright — leaving the state
exactly as it was — any resize for which the new master size or the
remaining stack space would not exceed MINWSZ, and otherwise applies
exactly the requested delta (never a clamped value); resize_stack applies
its delta unconditionally, with no boundary check. -/
theorem resize_bounds (MINWSZ : Int) (s : MonGeom) (i : Int) :
    (((if s.mode = BSTACK then s.wh else s.ww) - (s.master_size + i) ≤ MINWSZ ∨
        s.master_size + i ≤ MINWSZ) → resize_master MINWSZ s i = s) ∧
    (¬((if s.mode = BSTACK then s.wh else s.ww) - (s.master_size + i) ≤ MINWSZ ∨
        s.master_size + i ≤ MINWSZ) →
      resize_master MINWSZ s i = { s with master_size := s.master_size + i }) ∧
    resize_stack s i = { s with growth := s.growth + i } := by
  refine ⟨fun h => ?_, fun h => ?_, rfl⟩
  · simp only [resize_master]
    rw [if_pos h]
  · simp only [resize_master]
    rw [if_neg h]

/-- Witness for C7: a legal resize is applied exactly; an out-of-bounds
one is rejected with the state unchanged. -/
theorem resize_bounds_witness :
    resize_master 50 ⟨TILE, 500, 0, 1000, 1000⟩ 10 = ⟨TILE, 510, 0, 1000, 1000⟩ ∧
    resize_master 50 ⟨TILE, 500, 0, 1000, 1000⟩ 10000 = ⟨TILE, 500, 0, 1000, 1000⟩ :=
  ⟨(resize_bounds 50 ⟨TILE, 500, 0, 1000, 1000⟩ 10).2.1 (by decide),
   (resize_bounds 50 ⟨TILE, 500, 0, 1000, 1000⟩ 10000).1 (by decide)⟩

theorem takeWhile_first_occ (c : Nat) :
    ∀ (pre rest : List Nat), (∀ x ∈ pre, x ≠ c) →
      (pre ++ c :: rest).takeWhile (fun x => x != c) = pre ∧
      (pre ++ c :: rest).dropWhile (fun x => x != c) = c :: rest := by
  intro pre
  induction pre with
  | nil =>
    intro rest _
    constructor <;> simp [List.takeWhile_cons, List.dropWhile_cons]
  | cons p ps ih =>
    intro rest h
    have hp : p ≠ c := h p (List.mem_cons_self p ps)
    have hps := ih rest (fun x hx => h x (List.mem_cons_of_mem p hx))
    constructor
    · simp [List.takeWhile_cons, hp, hps.1]
    · simp [List.dropWhile_cons, hp, hps.2]

theorem exists_first_decomp (c : Nat) : ∀ (l : List Nat), c ∈ l →
    ∃ pre post, l = pre ++ c :: post ∧ ∀ x ∈ pre, x ≠ c := by
  intro l
  induction l with
  | nil => intro h; exact absurd h (List.not_mem_nil c)
  | cons a as ih =>
    intro h
    by_cases hac : a = c
    · subst hac; exact ⟨[], as, rfl, by simp⟩
    · have hcas : c ∈ as := by
        rcases List.mem_cons.mp h with h1 | h2
        · exact absurd h1.symm hac
        · exact h2
      rcases ih hcas with ⟨pre, post, hl, hpre⟩
      refine ⟨a :: pre, post, by rw [hl, List.cons_append], ?_⟩
      intro x hx
      rcases List.mem_cons.mp hx with rfl | hx2
      · exact hac
      · exact hpre x hx2

theorem moveDown_eq_swap (pre post : List Nat) (c nx : Nat) (hpre : ∀ x ∈ pre, x ≠ c) :
    moveDownList (pre ++ c :: nx :: post) c = pre ++ nx :: c :: post := by
  have h := takeWhile_first_occ c pre (nx :: post) hpre
  simp only [moveDownList, h.1, h.2]

theorem moveDown_eq_rot (pre : List Nat) (c : Nat) (hpre : ∀ x ∈ pre, x ≠ c) :
    moveDownList (pre ++ [c]) c = c :: pre := by
  have h := takeWhile_first_occ c pre [] hpre
  simp only [moveDownList, h.1, h.2]

theorem moveUp_eq_swap (pre post : List Nat) (p c : Nat) (hpre : ∀ x ∈ pre, x ≠ c)
    (hp : p ≠ c) :
    moveUpList (pre ++ p :: c :: post) c = pre ++ c :: p :: post := by
  have hpre2 : ∀ x ∈ pre ++ [p], x ≠ c := by
    intro x hx
    rcases List.mem_append.mp hx with h1 | h2
    · exact hpre x h1
    · rcases List.mem_singleton.mp h2 with rfl
      exact hp
  have hassoc : pre ++ p :: c :: post = (pre ++ [p]) ++ c :: post := by simp
  have h := takeWhile_first_occ c (pre ++ [p]) post hpre2
  rw [hassoc]
  simp only [moveUpList, h.1, h.2]
  rw [if_neg (by simp)]
  rw [List.dropLast_concat, List.getLastD_concat]

theorem moveUp_eq_rot (rest : List Nat) (c : Nat) :
    moveUpList (c :: rest) c = rest ++ [c] := by
  have h := takeWhile_first_occ c [] rest (by simp)
  have h1 : (c :: rest).takeWhile (fun x => x != c) = [] := by simpa using h.1
  have h2 : (c :: rest).dropWhile (fun x => x != c) = c :: rest := by simpa using h.2
  simp [moveUpList, h1, h2]

theorem moveDown_perm (l : List Nat) (c : Nat) (hc : c ∈ l) :
    (moveDownList l c).Perm l := by
  rcases exists_first_decomp c l hc with ⟨pre, post, hl, hpre⟩
  subst hl
  cases post with
  | nil =>
    rw [moveDown_eq_rot pre c hpre]
    exact (List.perm_append_singleton c pre).symm
  | cons nx rest =>
    rw [moveDown_eq_swap pre rest c nx hpre]
    exact List.Perm.append_left pre (List.Perm.swap c nx rest)

theorem moveUp_perm (l : List Nat) (c : Nat) (hc : c ∈ l) :
    (moveUpList l c).Perm l := by
  rcases exists_first_decomp c l hc with ⟨pre, post, hl, hpre⟩
  subst hl
  cases pre with
  | nil =>
    rw [List.nil_append, moveUp_eq_rot post c]
    exact List.perm_append_singleton c post
  | cons q qs =>
    have hne : q :: qs ≠ [] := List.cons_ne_nil q qs
    have hdecomp := List.dropLast_append_getLast hne
    have hlast : (q :: qs).getLast hne ∈ q :: qs := List.getLast_mem hne
    have hplast : (q :: qs).getLast hne ≠ c := hpre _ hlast
    have hpre3 : ∀ x ∈ (q :: qs).dropLast, x ≠ c := fun x hx =>
      hpre x (List.dropLast_subset (q :: qs) hx)
    have hshape : (q :: qs) ++ c :: post =
        (q :: qs).dropLast ++ ((q :: qs).getLast hne) :: c :: post := by
      conv_lhs => rw [← hdecomp]
      simp
    rw [hshape, moveUp_eq_swap _ post _ c hpre3 hplast]
    exact List.Perm.append_left _ (List.Perm.swap _ c post)

/-- C5 (amended): on a nodup client list containing the current client c,
move_down swaps c with its successor when one exists, and moves c to the
head of the list (preserving the order of the rest) when c is last;
move_up swaps c with its predecessor when one exists, and moves c to the
tail when c is head; in every case the resulting list is a permutation of
the original, so the set of clients is unchanged. -/
theorem move_swap_spec (l : List Nat) (c : Nat) (hnd : l.Nodup) (hc : c ∈ l) :
    (moveDownList l c).Perm l ∧ (moveUpList l c).Perm l ∧
    (∀ pre nx post, l = pre ++ c :: nx :: post → moveDownList l c = pre ++ nx :: c :: post) ∧
    (∀ pre, l = pre ++ [c] → moveDownList l c = c :: pre) ∧
    (∀ pre p post, l = pre ++ p :: c :: post → moveUpList l c = pre ++ c :: p :: post) ∧
    (∀ rest, l = c :: rest → moveUpList l c = rest ++ [c]) := by
  refine ⟨moveDown_perm l c hc, moveUp_perm l c hc, ?_, ?_, ?_, ?_⟩
  · intro pre nx post hl
    subst hl
    have hdisj := List.disjoint_of_nodup_append hnd
    exact moveDown_eq_swap pre post c nx (fun x hx hxc =>
      hdisj hx (hxc ▸ List.mem_cons_self c (nx :: post)))
  · intro pre hl
    subst hl
    have hdisj := List.disjoint_of_nodup_append hnd
    exact moveDown_eq_rot pre c (fun x hx hxc =>
      hdisj hx (hxc ▸ List.mem_singleton_self c))
  · intro pre p post hl
    subst hl
    have hdisj := List.disjoint_of_nodup_append hnd
    have h2 : (p :: c :: post).Nodup := (List.nodup_append.mp hnd).2.1
    have hpc : p ≠ c := by
      intro hpc
      exact (List.nodup_cons.mp h2).1 (hpc ▸ List.mem_cons_self c post)
    refine moveUp_eq_swap pre post p c (fun x hx hxc => ?_) hpc
    subst hxc
    exact hdisj hx (List.mem_cons_of_mem p (List.mem_cons_self x post))
  · intro rest hl
    subst hl
    exact moveUp_eq_rot rest c

/-- C5 counterexample: with clients [1,2,3] and current client 3 (a list
of at least two clients with a non-null current), move_down produces
[3,1,2], which is not a transposition of two neighboring positions of
[1,2,3] (those would be [2,1,3] or [1,3,2]). -/
theorem move_down_claim_false :
    moveDownList [1, 2, 3] 3 = [3, 1, 2] ∧
    moveDownList [1, 2, 3] 3 ≠ [1, 3, 2] ∧
    moveDownList [1, 2, 3] 3 ≠ [2, 1, 3] := by decide

/-- Witness for C5 at the list [1,2] with current client 1. -/
theorem move_swap_spec_witness :
    moveDownList [1, 2] 1 = [2, 1] ∧ (moveUpList [1, 2] 1).Perm [1, 2] :=
  ⟨(move_swap_spec [1, 2] 1 (by decide) (by decide)).2.2.1 [] 2 [] rfl,
   (move_swap_spec [1, 2] 1 (by decide) (by decide)).2.1⟩

/-! #### List update helpers and desktop-context switching. -/

theorem getD_set_self {α : Type} (l : List α) (n : Nat) (a d : α) (h : n < l.length) :
    (l.set n a).getD n d = a := by
  induction l generalizing n with
  | nil => simp at h
  | cons x xs ih =>
    cases n with
    | zero => rfl
    | succ k =>
      simp only [List.set_cons_succ, List.getD_cons_succ]
      exact ih k (by simpa using h)

theorem getD_set_ne {α : Type} (l : List α) (n k : Nat) (a d : α) (h : n ≠ k) :
    (l.set n a).getD k d = l.getD k d := by
  induction l generalizing n k with
  | nil => simp [List.set_nil]
  | cons x xs ih =>
    cases n with
    | zero =>
      cases k with
      | zero => exact absurd rfl h
      | succ j => rfl
    | succ m =>
      cases k with
      | zero => rfl
      | succ j =>
        simp only [List.set_cons_succ, List.getD_cons_succ]
        exact ih m j (by omega)

theorem set_getD_self {α : Type} (l : List α) (n : Nat) (d : α) (h : n < l.length) :
    l.set n (l.getD n d) = l := by
  induction l generalizing n with
  | nil => simp at h
  | cons x xs ih =>
    cases n with
    | zero => rfl
    | succ k =>
      simp only [List.set_cons_succ, List.getD_cons_succ]
      rw [ih k (by simpa using h)]

theorem set_get?_self {α : Type} (l : List α) (n : Nat) (a : α) (h : l.get? n = some a) :
    l.set n a = l := by
  induction l generalizing n with
  | nil => simp at h
  | cons x xs ih =>
    cases n with
    | zero => simp at h; rw [List.set_cons_zero, h]
    | succ k =>
      simp only [List.set_cons_succ]
      rw [ih k (by simpa using h)]

theorem select_desktop_active_eq (m : Mon) (i : Int) (h0 : 0 ≤ i)
    (hlt : i < (m.desktops.length : Int)) (hcd : m.current_desktop = i) :
    select_desktop m i = ⟨i, m.active, m.desktops.set i.toNat m.active⟩ := by
  have hlen : i.toNat < m.desktops.length := by omega
  unfold select_desktop save_desktop
  rw [if_neg (by omega), hcd, if_neg (by omega)]
  simp only []
  congr 1
  exact getD_set_self m.desktops i.toNat m.active emptyDCtx hlen

theorem select_desktop_triple_active (m : Mon) (i j : Int) (h0 : 0 ≤ i)
    (hlt : i < (m.desktops.length : Int)) (hcd : m.current_desktop = i) :
    (select_desktop (select_desktop (select_desktop m i) j) i).active = m.active := by
  have hlen : i.toNat < m.desktops.length := by omega
  have hs1 := select_desktop_active_eq m i h0 hlt hcd
  rw [hs1]
  set D1 := m.desktops.set i.toNat m.active with hD1
  have hlenD1 : D1.length = m.desktops.length := List.length_set m.desktops i.toNat m.active
  by_cases hj : j < 0 ∨ (m.desktops.length : Int) ≤ j
  · -- second call is a no-op
    have hs2 : select_desktop (⟨i, m.active, D1⟩ : Mon) j = ⟨i, m.active, D1⟩ := by
      unfold select_desktop
      rw [if_pos]
      simpa [hlenD1] using hj
    rw [hs2]
    have hs3 := select_desktop_active_eq (⟨i, m.active, D1⟩ : Mon) i h0 (by simpa [hlenD1]) rfl
    rw [hs3]
  · push_neg at hj
    have hj0 : 0 ≤ j := hj.1
    have hjlt : j < (m.desktops.length : Int) := hj.2
    have hs2 : select_desktop (⟨i, m.active, D1⟩ : Mon) j =
        ⟨j, D1.getD j.toNat emptyDCtx, D1⟩ := by
      unfold select_desktop save_desktop
      rw [if_neg (by simp only [hlenD1]; omega)]
      simp only []
      rw [if_neg (by simp only [hlenD1]; omega)]
      congr 1
      · -- set i.toNat m.active on D1 is D1 itself
        rw [hD1, List.set_set]
      · rw [hD1, List.set_set]
    rw [hs2]
    -- third call
    unfold select_desktop save_desktop
    rw [if_neg (by simp only [List.length_set, hlenD1]; omega)]
    simp only []
    rw [if_neg (by simp only [hlenD1]; omega)]
    simp only []
    by_cases hij : i = j
    · subst hij
      rw [set_getD_self D1 i.toNat emptyDCtx (by omega)]
      rw [hD1]
      exact getD_set_self m.desktops i.toNat m.active emptyDCtx hlen
    · have htn : j.toNat ≠ i.toNat := by omega
      rw [getD_set_ne D1 j.toNat i.toNat _ emptyDCtx htn]
      rw [hD1]
      exact getD_set_self m.desktops i.toNat m.active emptyDCtx hlen

/-- C2 counterexample: with two desktops whose saved slots differ (slot 0
mode 0, slot 1 mode 1), starting on desktop 0, the sequence
select_desktop(1); select_desktop(0); select_desktop(1) ends with desktop
1's context active (mode 1), not the context that was active before the
first call (mode 0): the triple only restores the pre-first-call context
when i is the desktop that was already active. -/
theorem select_desktop_triple_claim_false :
    (select_desktop (select_desktop (select_desktop monC2 1) 0) 1).active.mode ≠
      monC2.active.mode := by decide

/-- C2 (amended): for every valid desktop index i that is the monitor's
active desktop before the first call, and every index j, the sequence
select_desktop(i); select_desktop(j); select_desktop(i) restores exactly
the head, current, previous-focus, mode, master-size and growth values of
the active context that held before the first call. -/
theorem select_desktop_triple (m : Mon) (i j : Int) (h0 : 0 ≤ i)
    (hlt : i < (m.desktops.length : Int)) (hcd : m.current_desktop = i) :
    (select_desktop (select_desktop (select_desktop m i) j) i).active.head =
        m.active.head ∧
    (select_desktop (select_desktop (select_desktop m i) j) i).active.current =
        m.active.current ∧
    (select_desktop (select_desktop (select_desktop m i) j) i).active.prevfocus =
        m.active.prevfocus ∧
    (select_desktop (select_desktop (select_desktop m i) j) i).active.mode =
        m.active.mode ∧
    (select_desktop (select_desktop (select_desktop m i) j) i).active.master_size =
        m.active.master_size ∧
    (select_desktop (select_desktop (select_desktop m i) j) i).active.growth =
        m.active.growth := by
  have key := select_desktop_triple_active m i j h0 hlt hcd
  refine ⟨?_, ?_, ?_, ?_, ?_, ?_⟩ <;> rw [key]

/-- Witness for C2 at monC2 with i = 0 (the active desktop), j = 1. -/
theorem select_desktop_triple_witness :
    (select_desktop (select_desktop (select_desktop monC2 0) 1) 0).active.mode =
      monC2.active.mode :=
  (select_desktop_triple monC2 0 1 (by decide) (by decide) rfl).2.2.2.1

theorem select_desktop_aligned (D : List DCtx) (m : Mon) (hal : monAligned D m)
    (d : Int) (h0 : 0 ≤ d) (hlt : d < (D.length : Int)) :
    select_desktop m d = ⟨d, D.getD d.toNat emptyDCtx, D⟩ := by
  obtain ⟨hD, hcd0, hcdlt, hact⟩ := hal
  unfold select_desktop save_desktop
  rw [if_neg (by rw [hD]; omega), if_neg (by rw [hD]; omega)]
  simp only []
  rw [hD, hact]
  rw [set_getD_self D m.current_desktop.toNat emptyDCtx (by omega)]

theorem select_desktop_aligned_post (D : List DCtx) (m : Mon) (hal : monAligned D m)
    (d : Int) (h0 : 0 ≤ d) (hlt : d < (D.length : Int)) :
    monAligned D (select_desktop m d) := by
  rw [select_desktop_aligned D m hal d h0 hlt]
  exact ⟨rfl, h0, hlt, rfl⟩

theorem searchDesk_fold_aligned (w : Nat) (D : List DCtx) :
    ∀ (ds : List Nat), (∀ d ∈ ds, d < D.length) →
    ∀ (st : Mon × Option Cl), monAligned D st.1 →
    monAligned D ((ds.foldl (searchDesk w) st).1) := by
  intro ds
  induction ds with
  | nil => intro _ st hal; exact hal
  | cons d rest ih =>
    intro hds st hal
    simp only [List.foldl_cons]
    apply ih (fun x hx => hds x (List.mem_cons_of_mem d hx))
    unfold searchDesk
    by_cases hs : st.2.isSome
    · rw [if_pos hs]; exact hal
    · rw [if_neg hs]
      exact select_desktop_aligned_post D st.1 hal d (by omega)
        (by have := hds d (List.mem_cons_self d rest); omega)

theorem mon_eta (m : Mon) : (⟨m.current_desktop, m.active, m.desktops⟩ : Mon) = m := rfl

theorem wintoclientMon_fst (w : Nat) (m : Mon) (h : MonWF m) :
    (wintoclientMon w m).1 = m := by
  obtain ⟨h0, hlt, hact⟩ := h
  have hal : monAligned m.desktops m := ⟨rfl, h0, hlt, hact.symm⟩
  unfold wintoclientMon
  simp only []
  have h2 := searchDesk_fold_aligned w m.desktops (List.range m.desktops.length)
    (fun x hx => List.mem_range.mp hx) (m, none) hal
  rw [select_desktop_aligned m.desktops _ h2 m.current_desktop h0 hlt, hact]

theorem getD_mem (D : List DCtx) (d : Nat) (h : d < D.length) :
    D.getD d emptyDCtx ∈ D := by
  rw [List.getD_eq_getElem?_getD, List.getElem?_eq_getElem h]
  exact List.getElem_mem h

theorem searchDesk_fold_none (w : Nat) (D : List DCtx)
    (hfree : ∀ dctx ∈ D, ∀ c ∈ dctx.head, c.win ≠ w) :
    ∀ (ds : List Nat), (∀ d ∈ ds, d < D.length) →
    ∀ (st : Mon × Option Cl), monAligned D st.1 → st.2 = none →
    (ds.foldl (searchDesk w) st).2 = none := by
  intro ds
  induction ds with
  | nil => intro _ st _ h2; exact h2
  | cons d rest ih =>
    intro hds st hal h2
    simp only [List.foldl_cons]
    have hd : d < D.length := hds d (List.mem_cons_self d rest)
    have hsel := select_desktop_aligned D st.1 hal d (by omega) (by omega)
    have hfind : (select_desktop st.1 (d : Int)).active.head.find?
        (fun c => c.win == w) = none := by
      rw [hsel]
      simp only [List.find?_eq_none]
      intro c hc
      have hne := hfree (D.getD (d : Int).toNat emptyDCtx)
        (getD_mem D (d : Int).toNat (by omega)) c hc
      simp [hne]
    have hstep : searchDesk w st d =
        (select_desktop st.1 (d : Int), none) := by
      unfold searchDesk
      rw [if_neg (by rw [h2]; simp)]
      exact congrArg (Prod.mk _) hfind
    rw [hstep]
    exact ih (fun x hx => hds x (List.mem_cons_of_mem d hx))
      (select_desktop st.1 (d : Int), none)
      (select_desktop_aligned_post D st.1 hal d (by omega) (by omega)) rfl

theorem wintoclientMon_none (w : Nat) (m : Mon) (h : MonWF m)
    (hfree : ∀ dctx ∈ m.desktops, ∀ c ∈ dctx.head, c.win ≠ w) :
    (wintoclientMon w m).2 = none := by
  obtain ⟨h0, hlt, hact⟩ := h
  unfold wintoclientMon
  simp only []
  exact searchDesk_fold_none w m.desktops hfree (List.range m.desktops.length)
    (fun x hx => List.mem_range.mp hx) (m, none) ⟨rfl, h0, hlt, hact.symm⟩ rfl

theorem wm_eta (s : WM) : (⟨s.current_monitor, s.monitors⟩ : WM) = s := rfl

theorem select_monitor_monitors (s : WM) (i : Int) :
    (select_monitor s i).monitors = s.monitors := by
  unfold select_monitor
  split <;> rfl

theorem wintoclient_fold_monitors (w : Nat) (s : WM) (hWF : WMWF s) :
    ∀ (ms : List Nat), (∀ mi ∈ ms, mi < s.monitors.length) →
    ∀ (st : WM × Option Cl), st.1.monitors = s.monitors →
    ((ms.foldl (wintoclientStep w) st).1.monitors = s.monitors) := by
  intro ms
  induction ms with
  | nil => intro _ st h; exact h
  | cons mi rest ih =>
    intro hms st hmon
    simp only [List.foldl_cons]
    apply ih (fun x hx => hms x (List.mem_cons_of_mem mi hx))
    unfold wintoclientStep
    by_cases hs : st.2.isSome
    · rw [if_pos hs]; exact hmon
    · rw [if_neg hs]
      have hmi : mi < s.monitors.length := hms mi (List.mem_cons_self mi rest)
      have hget? : s.monitors.get? mi = some (s.monitors.getD mi emptyMon) := by
        rw [List.get?_eq_getElem?, List.getElem?_eq_getElem hmi,
            List.getD_eq_getElem?_getD, List.getElem?_eq_getElem hmi]
        rfl
      have hm : s.monitors.getD mi emptyMon ∈ s.monitors := by
        rw [List.getD_eq_getElem?_getD, List.getElem?_eq_getElem hmi]
        exact List.getElem_mem hmi
      have hWFm : MonWF (s.monitors.getD mi emptyMon) := hWF.2.2 _ hm
      simp only [select_monitor_monitors, hmon, hget?]
      rw [wintoclientMon_fst w _ hWFm]
      exact set_get?_self s.monitors mi _ hget?

theorem wintoclient_fst (s : WM) (w : Nat) (hWF : WMWF s) :
    (wintoclient s w).1 = s := by
  unfold wintoclient
  simp only []
  have hmon := wintoclient_fold_monitors w s hWF (List.range s.monitors.length)
    (fun x hx => List.mem_range.mp hx) (s, none) rfl
  unfold select_monitor
  rw [if_neg (by rw [hmon]; have := hWF.2.1; omega)]
  have : (⟨s.current_monitor,
      (List.foldl (wintoclientStep w) (s, none) (List.range s.monitors.length)).1.monitors⟩ : WM) =
      ⟨s.current_monitor, s.monitors⟩ := by rw [hmon]
  exact this

theorem wintoclient_fold_none (w : Nat) (s : WM) (hWF : WMWF s) (hu : untracked s w) :
    ∀ (ms : List Nat), (∀ mi ∈ ms, mi < s.monitors.length) →
    ∀ (st : WM × Option Cl), st.1.monitors = s.monitors → st.2 = none →
    ((ms.foldl (wintoclientStep w) st).2 = none) := by
  intro ms
  induction ms with
  | nil => intro _ st _ h2; exact h2
  | cons mi rest ih =>
    intro hms st hmon h2
    simp only [List.foldl_cons]
    have hmi : mi < s.monitors.length := hms mi (List.mem_cons_self mi rest)
    have hget? : s.monitors.get? mi = some (s.monitors.getD mi emptyMon) := by
      rw [List.get?_eq_getElem?, List.getElem?_eq_getElem hmi,
          List.getD_eq_getElem?_getD, List.getElem?_eq_getElem hmi]
      rfl
    have hm : s.monitors.getD mi emptyMon ∈ s.monitors := by
      rw [List.getD_eq_getElem?_getD, List.getElem?_eq_getElem hmi]
      exact List.getElem_mem hmi
    have hWFm : MonWF (s.monitors.getD mi emptyMon) := hWF.2.2 _ hm
    have hnone : (wintoclientMon w (s.monitors.getD mi emptyMon)).2 = none :=
      wintoclientMon_none w _ hWFm (fun dctx hd c hc => hu _ hm dctx hd c hc)
    have hstep : wintoclientStep w st mi =
        ({ current_monitor := (select_monitor st.1 (mi : Int)).current_monitor,
           monitors := (select_monitor st.1 (mi : Int)).monitors.set mi
             (wintoclientMon w (s.monitors.getD mi emptyMon)).1 }, none) := by
      unfold wintoclientStep
      rw [if_neg (by rw [h2]; simp)]
      simp only [select_monitor_monitors, hmon, hget?]
      rw [hnone]
    rw [hstep]
    apply ih (fun x hx => hms x (List.mem_cons_of_mem mi hx))
    · simp only [select_monitor_monitors, hmon]
      rw [wintoclientMon_fst w _ hWFm]
      exact set_get?_self s.monitors mi _ hget?
    · rfl

theorem wintoclient_none (s : WM) (w : Nat) (hWF : WMWF s) (hu : untracked s w) :
    (wintoclient s w).2 = none := by
  unfold wintoclient
  simp only []
  exact wintoclient_fold_none w s hWF hu (List.range s.monitors.length)
    (fun x hx => List.mem_range.mp hx) (s, none) rfl rfl

theorem deskinfo_fold_aligned (mIdx : Nat) (isOld lastMon : Bool) (DN : Nat) (cd : Int)
    (D : List DCtx) :
    ∀ (ds : List Nat), (∀ d ∈ ds, d < D.length) →
    ∀ (st : Mon × String), monAligned D st.1 →
    monAligned D ((ds.foldl (deskinfoDeskStep mIdx isOld lastMon DN cd) st).1) := by
  intro ds
  induction ds with
  | nil => intro _ st hal; exact hal
  | cons d rest ih =>
    intro hds st hal
    simp only [List.foldl_cons]
    apply ih (fun x hx => hds x (List.mem_cons_of_mem d hx))
    unfold deskinfoDeskStep
    simp only []
    exact select_desktop_aligned_post D st.1 hal d (by omega)
      (by have := hds d (List.mem_cons_self d rest); omega)

theorem deskinfoMon_fst (mIdx : Nat) (isOld lastMon : Bool) (m : Mon) (h : MonWF m) :
    (deskinfoMon mIdx isOld lastMon m).1 = m := by
  obtain ⟨h0, hlt, hact⟩ := h
  have hal : monAligned m.desktops m := ⟨rfl, h0, hlt, hact.symm⟩
  unfold deskinfoMon
  simp only []
  have h2 := deskinfo_fold_aligned mIdx isOld lastMon m.desktops.length
    m.current_desktop m.desktops (List.range m.desktops.length)
    (fun x hx => List.mem_range.mp hx) (m, "") hal
  rw [select_desktop_aligned m.desktops _ h2 m.current_desktop h0 hlt, hact]

theorem deskinfo_fold_monitors (s : WM) (hWF : WMWF s) (OLDM : Int) (MON : Nat) :
    ∀ (ms : List Nat), (∀ mi ∈ ms, mi < s.monitors.length) →
    ∀ (st : WM × String), st.1.monitors = s.monitors →
    ((ms.foldl (deskinfoMonStep OLDM MON) st).1.monitors = s.monitors) := by
  intro ms
  induction ms with
  | nil => intro _ st h; exact h
  | cons mi rest ih =>
    intro hms st hmon
    simp only [List.foldl_cons]
    apply ih (fun x hx => hms x (List.mem_cons_of_mem mi hx))
    unfold deskinfoMonStep
    have hmi : mi < s.monitors.length := hms mi (List.mem_cons_self mi rest)
    have hget? : s.monitors.get? mi = some (s.monitors.getD mi emptyMon) := by
      rw [List.get?_eq_getElem?, List.getElem?_eq_getElem hmi,
          List.getD_eq_getElem?_getD, List.getElem?_eq_getElem hmi]
      rfl
    have hm : s.monitors.getD mi emptyMon ∈ s.monitors := by
      rw [List.getD_eq_getElem?_getD, List.getElem?_eq_getElem hmi]
      exact List.getElem_mem hmi
    have hWFm : MonWF (s.monitors.getD mi emptyMon) := hWF.2.2 _ hm
    simp only [select_monitor_monitors, hmon, hget?]
    rw [deskinfoMon_fst _ _ _ _ hWFm]
    exact set_get?_self s.monitors mi _ hget?

theorem desktopinfoWM_fst (s : WM) (hWF : WMWF s) : (desktopinfoWM s).1 = s := by
  unfold desktopinfoWM
  simp only []
  have hmon := deskinfo_fold_monitors s hWF s.current_monitor s.monitors.length
    (List.range s.monitors.length) (fun x hx => List.mem_range.mp hx) (s, "") rfl
  unfold select_monitor
  rw [if_neg (by rw [hmon]; have := hWF.2.1; omega)]
  have : (⟨s.current_monitor,
      (List.foldl (deskinfoMonStep s.current_monitor s.monitors.length) (s, "")
        (List.range s.monitors.length)).1.monitors⟩ : WM) =
      ⟨s.current_monitor, s.monitors⟩ := by rw [hmon]
  exact this

/-- C10 counterexample: on a state whose saved slot for the active desktop
is out of sync with the active context (as happens after list-mutating
operations such as move_down that do not call save_desktop), wintoclient
does change the state: it rewrites the stale saved slot with the active
context while walking the desktops. -/
theorem wintoclient_claim_false : (wintoclient wmStale 99).1 ≠ wmStale := by decide

/-- C10 (amended): provided every monitor's saved slot for its active
desktop agrees with its active context (and indices are in range), the
Find operation wintoclient(w) leaves the manager's selection state
completely unchanged for every window handle w: the active monitor index,
every monitor's active desktop index, every desktop's saved context and
every active context equal their values before the call. -/
theorem wintoclient_preserves (s : WM) (w : Nat) (hWF : WMWF s) :
    (wintoclient s w).1 = s := wintoclient_fst s w hWF

/-- Witness for C10 on a concrete in-sync two-desktop state. -/
theorem wintoclient_preserves_witness : (wintoclient wmSync 5).1 = wmSync :=
  wintoclient_preserves wmSync 5 (by decide)

/-- C8: for every window handle with no tracked client, handling a
destroy notification or an unmap notification is a no-op on the manager
state (on well-formed states): no client record is removed, and every
monitor's desktop lists, head/current/previous-focus pointers, layout
parameters and active indices are exactly as before — so a second removal
of an already-removed client is not an error. -/
theorem untracked_removal_noop (s : WM) (w : Nat) (hWF : WMWF s) (hu : untracked s w) :
    destroynotifyWM s w = s ∧ ∀ r : Bool, unmapnotifyWM s w r = s := by
  have h1 := wintoclient_fst s w hWF
  have h2 := wintoclient_none s w hWF hu
  constructor
  · unfold destroynotifyWM
    simp only [h2, h1]
    exact desktopinfoWM_fst s hWF
  · intro r
    unfold unmapnotifyWM
    simp only [h2, h1]
    exact desktopinfoWM_fst s hWF

/-- Witness for C8 on a concrete state with one tracked window (42) and
an untracked handle (5). -/
theorem untracked_removal_noop_witness :
    WMWF wmSync ∧ untracked wmSync 5 ∧ destroynotifyWM wmSync 5 = wmSync ∧
      unmapnotifyWM wmSync 5 false = wmSync :=
  ⟨by decide, by decide, (untracked_removal_noop wmSync 5 (by decide) (by decide)).1,
   (untracked_removal_noop wmSync 5 (by decide) (by decide)).2 false⟩

theorem strConcat_append (l1 l2 : List String) :
    strConcat (l1 ++ l2) = strConcat l1 ++ strConcat l2 := by
  induction l1 with
  | nil => simp [strConcat]
  | cons a as ih => simp [strConcat, ih, String.append_assoc]

theorem markLast_cons (x : String) (l : List String) (h : l ≠ []) :
    markLast (x :: l) = (x ++ " ") :: markLast l := by
  cases l with
  | nil => exact absurd rfl h
  | cons y ys => rfl

theorem markLast_append (l1 l2 : List String) (h : l2 ≠ []) :
    markLast (l1 ++ l2) = l1.map (fun g => g ++ " ") ++ markLast l2 := by
  induction l1 with
  | nil => rfl
  | cons a as ih =>
    rw [List.cons_append, markLast_cons a (as ++ l2) (by simp [h]), ih]
    rfl

theorem intercalate_go_append (s x : String) :
    ∀ (l : List String) (y : String),
      String.intercalate.go (x ++ y) s l = x ++ String.intercalate.go y s l := by
  intro l
  induction l with
  | nil => intro y; simp [String.intercalate.go]
  | cons a as ih =>
    intro y
    simp only [String.intercalate.go]
    rw [show x ++ y ++ s ++ a = x ++ (y ++ s ++ a) by
      rw [String.append_assoc, String.append_assoc, String.append_assoc]]
    exact ih (y ++ s ++ a)

theorem intercalate_cons_cons (s a b : String) (l : List String) :
    String.intercalate s (a :: b :: l) = a ++ s ++ String.intercalate s (b :: l) := by
  show String.intercalate.go a s (b :: l) = a ++ s ++ String.intercalate.go b s l
  simp only [String.intercalate.go]
  rw [show a ++ s ++ b = (a ++ s) ++ b by rw [String.append_assoc]]
  rw [intercalate_go_append s (a ++ s) l b]

theorem strConcat_markLast (gs : List String) (h : gs ≠ []) :
    strConcat (markLast gs) = String.intercalate " " gs ++ "\n" := by
  induction gs with
  | nil => exact absurd rfl h
  | cons a as ih =>
    cases as with
    | nil =>
      show strConcat [a ++ "\n"] = String.intercalate " " [a] ++ "\n"
      show (a ++ "\n") ++ "" = String.intercalate " " [a] ++ "\n"
      rw [String.append_empty]
      rfl
    | cons b bs =>
      rw [markLast_cons a (b :: bs) (by simp), intercalate_cons_cons]
      show (a ++ " ") ++ strConcat (markLast (b :: bs)) = a ++ " " ++ String.intercalate " " (b :: bs) ++ "\n"
      rw [ih (by simp)]
      simp [String.append_assoc]

theorem deskinfo_fold_out (mIdx : Nat) (isOld lastMon : Bool) (DN : Nat) (cd : Int)
    (D : List DCtx) :
    ∀ (ds : List Nat), (∀ d ∈ ds, d < D.length) →
    ∀ (st : Mon × String), monAligned D st.1 →
    (ds.foldl (deskinfoDeskStep mIdx isOld lastMon DN cd) st).2 =
      st.2 ++ strConcat (ds.map (fun d => implGroupOf mIdx isOld D cd d ++
        (if lastMon ∧ d + 1 = DN then "\n" else " "))) := by
  intro ds
  induction ds with
  | nil =>
    intro _ st _
    show st.2 = st.2 ++ strConcat []
    rw [show strConcat [] = "" from rfl, String.append_empty]
  | cons d rest ih =>
    intro hds st hal
    have hd : d < D.length := hds d (List.mem_cons_self d rest)
    have hsel := select_desktop_aligned D st.1 hal d (by omega) (by omega)
    have hstep : deskinfoDeskStep mIdx isOld lastMon DN cd st d =
        (select_desktop st.1 (d : Int),
         st.2 ++ (implGroupOf mIdx isOld D cd d ++
           (if lastMon ∧ d + 1 = DN then "\n" else " "))) := by
      unfold deskinfoDeskStep
      simp only [hsel, implGroupOf, Int.toNat_natCast]
    simp only [List.foldl_cons]
    rw [hstep]
    rw [ih (fun x hx => hds x (List.mem_cons_of_mem d hx))
      (select_desktop st.1 (d : Int), st.2 ++ (implGroupOf mIdx isOld D cd d ++
        (if lastMon ∧ d + 1 = DN then "\n" else " ")))
      (select_desktop_aligned_post D st.1 hal (d : Int) (by omega) (by omega))]
    show st.2 ++ _ ++ _ = st.2 ++ _
    rw [String.append_assoc]
    rfl

theorem deskinfoMon_out (mIdx : Nat) (isOld lastMon : Bool) (m : Mon) (h : MonWF m) :
    (deskinfoMon mIdx isOld lastMon m).2 =
      strConcat ((List.range m.desktops.length).map (fun d =>
        implGroupOf mIdx isOld m.desktops m.current_desktop d ++
        (if lastMon ∧ d + 1 = m.desktops.length then "\n" else " "))) := by
  obtain ⟨h0, hlt, hact⟩ := h
  have hal : monAligned m.desktops m := ⟨rfl, h0, hlt, hact.symm⟩
  unfold deskinfoMon
  simp only []
  have hout := deskinfo_fold_out mIdx isOld lastMon m.desktops.length m.current_desktop
    m.desktops (List.range m.desktops.length) (fun x hx => List.mem_range.mp hx)
    (m, "") hal
  rw [show (select_desktop (List.foldl (deskinfoDeskStep mIdx isOld lastMon
      m.desktops.length m.current_desktop) (m, "") (List.range m.desktops.length)).1
      m.current_desktop,
      (List.foldl (deskinfoDeskStep mIdx isOld lastMon m.desktops.length
        m.current_desktop) (m, "") (List.range m.desktops.length)).2).2 =
      (List.foldl (deskinfoDeskStep mIdx isOld lastMon m.desktops.length
        m.current_desktop) (m, "") (List.range m.desktops.length)).2 from rfl]
  rw [hout]
  show "" ++ _ = _
  rw [String.empty_append]

theorem mark_range (g : Nat → String) :
    ∀ (k a DN : Nat), a + k = DN →
    (List.range' a k).map (fun d => g d ++ (if d + 1 = DN then "\n" else " ")) =
      markLast ((List.range' a k).map g) := by
  intro k
  induction k with
  | zero => intro a DN _; rfl
  | succ k ih =>
    intro a DN hDN
    rw [List.range'_succ]
    cases k with
    | zero =>
      simp only [List.range', List.map_cons, List.map_nil]
      rw [if_pos (by omega)]
      rfl
    | succ k2 =>
      have hne : List.range' (a + 1) (k2 + 1) ≠ [] := by
        rw [List.range'_succ]
        exact List.cons_ne_nil _ _
      simp only [List.map_cons]
      rw [if_neg (by omega)]
      rw [markLast_cons (g a) (List.map g (List.range' (a + 1) (k2 + 1)))
        (by simpa using hne)]
      rw [ih (a + 1) DN (by omega)]

theorem range_eq_range0 (n : Nat) : List.range n = List.range' 0 n := List.range_eq_range' n

theorem wm_fold_out (s : WM) (hWF : WMWF s) (OLDM : Int) (MON : Nat) :
    ∀ (ms : List Nat), (∀ mi ∈ ms, mi < s.monitors.length) →
    ∀ (st : WM × String), st.1.monitors = s.monitors →
    (ms.foldl (deskinfoMonStep OLDM MON) st).2 =
      st.2 ++ strConcat (ms.map (fun mi =>
        (deskinfoMon mi (((mi : Int)) == OLDM) (mi + 1 = MON)
          (s.monitors.getD mi emptyMon)).2)) := by
  intro ms
  induction ms with
  | nil =>
    intro _ st _
    show st.2 = st.2 ++ strConcat []
    rw [show strConcat [] = "" from rfl, String.append_empty]
  | cons mi rest ih =>
    intro hms st hmon
    have hmi : mi < s.monitors.length := hms mi (List.mem_cons_self mi rest)
    have hget? : s.monitors.get? mi = some (s.monitors.getD mi emptyMon) := by
      rw [List.get?_eq_getElem?, List.getElem?_eq_getElem hmi,
          List.getD_eq_getElem?_getD, List.getElem?_eq_getElem hmi]
      rfl
    have hm : s.monitors.getD mi emptyMon ∈ s.monitors := by
      rw [List.getD_eq_getElem?_getD, List.getElem?_eq_getElem hmi]
      exact List.getElem_mem hmi
    have hWFm : MonWF (s.monitors.getD mi emptyMon) := hWF.2.2 _ hm
    have hcm : (select_monitor st.1 (mi : Int)).current_monitor = (mi : Int) := by
      unfold select_monitor
      rw [if_neg (by rw [hmon]; omega)]
    simp only [List.foldl_cons]
    have hstep : deskinfoMonStep OLDM MON st mi =
        ({ current_monitor := (select_monitor st.1 (mi : Int)).current_monitor,
           monitors := (select_monitor st.1 (mi : Int)).monitors.set mi
             (deskinfoMon mi (((mi : Int)) == OLDM) (mi + 1 = MON)
               (s.monitors.getD mi emptyMon)).1 },
         st.2 ++ (deskinfoMon mi (((mi : Int)) == OLDM) (mi + 1 = MON)
           (s.monitors.getD mi emptyMon)).2) := by
      unfold deskinfoMonStep
      simp only [select_monitor_monitors, hmon, hget?, hcm]
    rw [hstep]
    rw [ih (fun x hx => hms x (List.mem_cons_of_mem mi hx)) _ (by
      show (select_monitor st.1 (mi : Int)).monitors.set mi _ = s.monitors
      rw [select_monitor_monitors, hmon, deskinfoMon_fst _ _ _ _ hWFm]
      exact set_get?_self s.monitors mi _ hget?)]
    show st.2 ++ _ ++ _ = st.2 ++ _
    rw [String.append_assoc]
    rfl

theorem toString_boolInt (b : Bool) : toString (boolInt b) = if b then "1" else "0" := by
  cases b <;> rfl

theorem toString_boolInt_beq (a b : Int) :
    toString (boolInt (a == b)) = if a = b then "1" else "0" := by
  by_cases h : a = b
  · rw [if_pos h, toString_boolInt, if_pos (by simp [h])]
  · rw [if_neg h, toString_boolInt, if_neg (by simp [h])]

theorem implGroup_eq_specGroup (s : WM) (mi d : Nat) :
    implGroupOf mi ((mi : Int) == s.current_monitor)
      (s.monitors.getD mi emptyMon).desktops
      (s.monitors.getD mi emptyMon).current_desktop d =
    specGroup s mi d := by
  unfold implGroupOf specGroup
  simp only [toString_boolInt_beq, toString_boolInt, beq_iff_eq]

theorem flatMap_ne_nil {α β : Type} (f : α → List β) (l : List α) (x : α)
    (hx : x ∈ l) (hf : f x ≠ []) : l.flatMap f ≠ [] := by
  induction l with
  | nil => exact absurd hx (List.not_mem_nil x)
  | cons a as ih =>
    rw [List.flatMap_cons]
    intro hcon
    rcases List.append_eq_nil.mp hcon with ⟨h1, h2⟩
    rcases List.mem_cons.mp hx with rfl | hxs
    · exact hf h1
    · exact ih hxs h2

theorem strConcat_cons (x : String) (l : List String) :
    strConcat (x :: l) = x ++ strConcat l := rfl

theorem flat_join (G : Nat → List String) (MON : Nat) (hlast : G (MON - 1) ≠ []) :
    ∀ (k a : Nat), a + k = MON → 1 ≤ k →
    strConcat ((List.range' a k).map (fun mi =>
      if mi + 1 = MON then strConcat (markLast (G mi))
      else strConcat ((G mi).map (fun g => g ++ " ")))) =
    strConcat (markLast ((List.range' a k).flatMap G)) := by
  intro k
  induction k with
  | zero => intro a _ h1; omega
  | succ k ih =>
    intro a hDN _
    rw [List.range'_succ]
    cases k with
    | zero =>
      simp only [List.map_cons, List.map_nil, List.flatMap_cons, strConcat_cons]
      rw [if_pos (by omega)]
      have h0 : List.range' (a + 1) 0 = ([] : List Nat) := rfl
      rw [h0]
      simp [strConcat, String.append_empty]
    | succ k2 =>
      have hne : List.range' (a + 1) (k2 + 1) ≠ [] := by
        rw [List.range'_succ]
        exact List.cons_ne_nil _ _
      have hflatne : (List.range' (a + 1) (k2 + 1)).flatMap G ≠ [] := by
        apply flatMap_ne_nil G _ (MON - 1)
        · have h1 : a + 1 ≤ MON - 1 := by omega
          have h2 : MON - 1 < a + 1 + (k2 + 1) := by omega
          exact List.mem_range'_1.mpr ⟨h1, h2⟩
        · exact hlast
      simp only [List.map_cons, List.flatMap_cons, strConcat_cons]
      rw [if_neg (by omega)]
      rw [ih (a + 1) (by omega) (by omega)]
      rw [markLast_append (G a) _ hflatne, strConcat_append]

/-- C9: on well-formed states the status output of desktopinfo() is
exactly one token-group per (monitor, desktop) pair, in lexicographic
(monitor, desktop) order, each group in the field order
monitor:is-active-monitor:desktop:client-count:mode:is-active-desktop:urgent,
groups separated by single spaces and the whole output terminated by
exactly one newline; the is-active-monitor field is 1 iff that monitor is
the active monitor (desktopinfoSpecOut spells this format out). -/
theorem desktopinfo_format (s : WM) (hWF : WMWF s) :
    (desktopinfoWM s).2 = desktopinfoSpecOut s := by
  have hMON : 1 ≤ s.monitors.length := by
    have h1 := hWF.2.1
    have h2 := hWF.1
    omega
  have hWFi : ∀ mi, mi < s.monitors.length → MonWF (s.monitors.getD mi emptyMon) := by
    intro mi hmi
    apply hWF.2.2
    rw [List.getD_eq_getElem?_getD, List.getElem?_eq_getElem hmi]
    exact List.getElem_mem hmi
  have hlen1 : ∀ mi, mi < s.monitors.length →
      1 ≤ (s.monitors.getD mi emptyMon).desktops.length := by
    intro mi hmi
    have h := hWFi mi hmi
    have h1 := h.1
    have h2 := h.2.1
    omega
  set G : Nat → List String := fun mi =>
    (List.range (s.monitors.getD mi emptyMon).desktops.length).map
      (fun d => specGroup s mi d) with hG
  have h1 : (desktopinfoWM s).2 =
      strConcat ((List.range s.monitors.length).map (fun mi =>
        (deskinfoMon mi ((mi : Int) == s.current_monitor)
          (mi + 1 = s.monitors.length) (s.monitors.getD mi emptyMon)).2)) := by
    unfold desktopinfoWM
    simp only []
    rw [wm_fold_out s hWF s.current_monitor s.monitors.length
      (List.range s.monitors.length) (fun x hx => List.mem_range.mp hx) (s, "") rfl]
    exact String.empty_append _
  have h2 : ∀ mi ∈ List.range s.monitors.length,
      (deskinfoMon mi ((mi : Int) == s.current_monitor)
        (mi + 1 = s.monitors.length) (s.monitors.getD mi emptyMon)).2 =
      (if mi + 1 = s.monitors.length then strConcat (markLast (G mi))
       else strConcat ((G mi).map (fun g => g ++ " "))) := by
    intro mi hmi
    have hmi2 := List.mem_range.mp hmi
    rw [deskinfoMon_out _ _ _ _ (hWFi mi hmi2)]
    by_cases hlast : mi + 1 = s.monitors.length
    · rw [if_pos hlast]
      have e1 : (List.range (s.monitors.getD mi emptyMon).desktops.length).map
          (fun d => implGroupOf mi ((mi : Int) == s.current_monitor)
            (s.monitors.getD mi emptyMon).desktops
            (s.monitors.getD mi emptyMon).current_desktop d ++
            (if ((mi + 1 = s.monitors.length : Bool) : Prop) ∧
              d + 1 = (s.monitors.getD mi emptyMon).desktops.length
             then "\n" else " ")) =
          (List.range' 0 (s.monitors.getD mi emptyMon).desktops.length).map
            (fun d => specGroup s mi d ++
              (if d + 1 = (s.monitors.getD mi emptyMon).desktops.length
               then "\n" else " ")) := by
        rw [← List.range_eq_range']
        apply List.map_congr_left
        intro d _
        rw [implGroup_eq_specGroup]
        congr 1
        simp [hlast]
      rw [e1, mark_range (fun d => specGroup s mi d)
        (s.monitors.getD mi emptyMon).desktops.length 0
        (s.monitors.getD mi emptyMon).desktops.length (by omega)]
      rw [hG]
      rw [← List.range_eq_range']
    · rw [if_neg hlast]
      have e1 : (List.range (s.monitors.getD mi emptyMon).desktops.length).map
          (fun d => implGroupOf mi ((mi : Int) == s.current_monitor)
            (s.monitors.getD mi emptyMon).desktops
            (s.monitors.getD mi emptyMon).current_desktop d ++
            (if ((mi + 1 = s.monitors.length : Bool) : Prop) ∧
              d + 1 = (s.monitors.getD mi emptyMon).desktops.length
             then "\n" else " ")) =
          ((G mi).map (fun g => g ++ " ")) := by
        rw [hG, List.map_map]
        apply List.map_congr_left
        intro d _
        rw [implGroup_eq_specGroup]
        show _ = specGroup s mi d ++ " "
        congr 1
        simp [hlast]
      rw [e1]
  have hlastG : G (s.monitors.length - 1) ≠ [] := by
    rw [hG]
    intro hcon
    rcases List.map_eq_nil_iff.mp hcon with hr
    have := hlen1 (s.monitors.length - 1) (by omega)
    rw [List.range_eq_nil] at hr
    omega
  have hflatne : (List.range' 0 s.monitors.length).flatMap G ≠ [] := by
    apply flatMap_ne_nil G _ (s.monitors.length - 1)
    · exact List.mem_range'_1.mpr ⟨by omega, by omega⟩
    · exact hlastG
  rw [h1, List.map_congr_left h2]
  rw [List.range_eq_range' s.monitors.length]
  rw [flat_join G s.monitors.length hlastG s.monitors.length 0 (by omega) hMON]
  rw [strConcat_markLast _ hflatne]
  unfold desktopinfoSpecOut
  rw [← List.range_eq_range']

/-- Witness for C9 on a concrete one-monitor, two-desktop state. -/
theorem desktopinfo_format_witness :
    (desktopinfoWM wmSync).2 = desktopinfoSpecOut wmSync :=
  desktopinfo_format wmSync (by decide)
